import Mathlib

/-!
Shallow embedding of the SHA-Variants-Implementation repository
(`utils.py`, `sha-1.py`, `sha-256.py`, `sha-512.py`).

Bytes are modelled as `List Nat` (each entry intended `< 256`); Python
integers are `Nat` with explicit masking where the source masks.  Python
exceptions (NameError for the undefined `ROTL`, ValueError for a negative
shift count, struct.error for out-of-range pack/unpack) are modelled with
`Except String`.
-/

/-- Big-endian value of a list of bytes, as Python's
`struct.unpack` computes it for one field: fold `acc * 256 + b`. -/
def beWord (chunk : List Nat) : Nat :=
  chunk.foldl (fun acc b => acc * 256 + b) 0

/-- Big-endian encoding of `n` in exactly `width` bytes (the byte at
position `i` is bits `8*(width-1-i)` and up), as `struct.pack` emits for
an in-range value. -/
def beBytes (width n : Nat) : List Nat :=
  (List.range width).map (fun i => (n >>> (8 * (width - 1 - i))) &&& 0xff)

/-- Fuel-driven splitting of a list into consecutive chunks of size `k`;
the fuel is initialised to the list length, which always suffices for
`0 < k` since each step drops at least one element. -/
def chunkListGo (k : Nat) : Nat → List Nat → List (List Nat)
  | _, [] => []
  | 0, _ => []
  | fuel+1, l => l.take k :: chunkListGo k fuel (l.drop k)

/-- Split a list into consecutive chunks of size `k` (the last chunk may
be short), as Python's `range(0, len(m), k)` slicing does. -/
def chunkList (k : Nat) (l : List Nat) : List (List Nat) :=
  chunkListGo k l.length l

/-- Lowercase hexadecimal rendering of `n`, zero-padded on the left to
`width` digits, as Python's format spec `0{width}x` produces. -/
def hexPad (width n : Nat) : String :=
  let ds := Nat.toDigits 16 n
  String.mk (List.replicate (width - ds.length) '0' ++ ds)

/-- Python `struct.pack` with format `>Q` (8-byte big-endian unsigned);
raises `struct.error` when the value does not fit. -/
def pack_be_Q (n : Nat) : Except String (List Nat) :=
  if n < 2^64 then .ok (beBytes 8 n)
  else .error "struct.error: int too large for Q format"

/-- Python `struct.pack` with format `>L` (4-byte big-endian unsigned);
raises `struct.error` when the value does not fit. -/
def pack_be_L (n : Nat) : Except String (List Nat) :=
  if n < 2^32 then .ok (beBytes 4 n)
  else .error "struct.error: int too large for L format"

/-- Python `struct.unpack` with format `>16L`: 16 big-endian 32-bit words
from a 64-byte buffer; raises `struct.error` on any other length. -/
def unpack_be_16L (block : List Nat) : Except String (List Nat) :=
  if block.length = 64 then .ok ((chunkList 4 block).map beWord)
  else .error "struct.error: unpack requires a buffer of 64 bytes"

/-- Python `struct.unpack` with format `>16Q`: 16 big-endian 64-bit words
from a 128-byte buffer; raises `struct.error` on any other length. -/
def unpack_be_16Q (block : List Nat) : Except String (List Nat) :=
  if block.length = 128 then .ok ((chunkList 8 block).map beWord)
  else .error "struct.error: unpack requires a buffer of 128 bytes"

/-- `utils.left_rotate`: `((n << b) | (n >> (32 - b))) & 0xffffffff`.
In Python `n >> (32 - b)` raises ValueError when `b > 32` (negative
shift); otherwise the function is total. -/
def left_rotate (n b : Nat) : Except String Nat :=
  if b ≤ 32 then .ok (((n <<< b) ||| (n >>> (32 - b))) &&& 0xffffffff)
  else .error "ValueError: negative shift count"

/-- `utils.right_rotate`: `(value >> shift) | (value << (32 - shift)) & 0xFFFFFFFF`
(Python precedence: `&` binds tighter than `|`).  In Python
`value << (32 - shift)` raises ValueError when `shift > 32`. -/
def right_rotate (value shift : Nat) : Except String Nat :=
  if shift ≤ 32 then .ok ((value >>> shift) ||| ((value <<< (32 - shift)) &&& 0xFFFFFFFF))
  else .error "ValueError: negative shift count"

/-- Name `ROTL` is called by `sha1_expand_block` in `sha-1.py` but is
defined nowhere in the repository; evaluating the call raises
`NameError` in Python, modelled as an `Except.error`. -/
def ROTL (_x : Nat) : Except String Nat :=
  .error "NameError: ROTL is not defined"

/-- Body of the `while` loop in `sha1_pad_message`: append `0x00` while
`(len * 8) % 512 != 448`.  The loop runs at most 63 times (the byte
length modulo 64 reaches 56), so fuel 64 never runs out. -/
def sha1_pad_zeros_go : Nat → List Nat → List Nat
  | 0, l => l
  | fuel+1, l =>
    if (l.length * 8) % 512 ≠ 448 then sha1_pad_zeros_go fuel (l ++ [0]) else l

/-- The zero-padding `while` loop of `sha1_pad_message`. -/
def sha1_pad_zeros (l : List Nat) : List Nat :=
  sha1_pad_zeros_go 64 l

/-- `sha1_pad_message` from `sha-1.py`: append `0x80`, zero-pad until the
bit length is 448 mod 512, then append the original bit length as an
8-byte big-endian integer. -/
def sha1_pad_message (message : List Nat) : Except String (List Nat) := do
  let message_len := message.length * 8
  let m := sha1_pad_zeros (message ++ [0x80])
  let lenBytes ← pack_be_Q message_len
  return m ++ lenBytes

/-- `sha1_expand_block` from `sha-1.py`: unpack 16 words, then for
`i in range(16, 80)` append `ROTL(w[i-3] ^ w[i-8] ^ w[i-14] ^ w[i-16]) & 0xffffffff`.
Indices are in range by construction, so `getD` defaults are never used. -/
def sha1_expand_block (block : List Nat) : Except String (List Nat) := do
  let words ← unpack_be_16L block
  (List.range' 16 64).foldlM (fun ws i => do
    let word ← ROTL ((ws.getD (i-3) 0) ^^^ (ws.getD (i-8) 0) ^^^
                     (ws.getD (i-14) 0) ^^^ (ws.getD (i-16) 0))
    return ws ++ [word &&& 0xffffffff]) words

/-- One round `t` of the `sha1_process_block` main loop.  Python's
`(~b) & d` on ints equals `(0xffffffff ^^^ b) &&& d` here because `b` and
`d` stay below `2^32` throughout. -/
def sha1_round (W : List Nat) (st : Nat × Nat × Nat × Nat × Nat) (t : Nat) :
    Except String (Nat × Nat × Nat × Nat × Nat) := do
  let (a, b, c, d, e) := st
  let f :=
    if t < 20 then (b &&& c) ||| ((0xffffffff ^^^ b) &&& d)
    else if t < 40 then b ^^^ c ^^^ d
    else if t < 60 then (b &&& c) ||| (b &&& d) ||| (c &&& d)
    else b ^^^ c ^^^ d
  let k :=
    if t < 20 then 0x5A827999
    else if t < 40 then 0x6ED9EBA1
    else if t < 60 then 0x8F1BBCDC
    else 0xCA62C1D6
  let rotA ← left_rotate a 5
  let temp := (rotA + f + e + k + W.getD t 0) &&& 0xffffffff
  let rotB ← left_rotate b 30
  return (temp, a, rotB, c, d)

/-- `sha1_process_block` from `sha-1.py`: expand the block, run 80 rounds,
then add the working variables back into the state modulo `2^32`. -/
def sha1_process_block (block : List Nat) (state : Nat × Nat × Nat × Nat × Nat) :
    Except String (Nat × Nat × Nat × Nat × Nat) := do
  let W ← sha1_expand_block block
  let (a, b, c, d, e) ← (List.range 80).foldlM (fun st t => sha1_round W st t) state
  let (s0, s1, s2, s3, s4) := state
  return ((s0 + a) &&& 0xffffffff, (s1 + b) &&& 0xffffffff, (s2 + c) &&& 0xffffffff,
          (s3 + d) &&& 0xffffffff, (s4 + e) &&& 0xffffffff)

/-- `sha1` from `sha-1.py`: pad, process 64-byte blocks, serialize the
five state words with `struct.pack` format `>5L`. -/
def sha1 (message : List Nat) : Except String (List Nat) := do
  let padded ← sha1_pad_message message
  let (a, b, c, d, e) ← (chunkList 64 padded).foldlM
    (fun st block => sha1_process_block block st)
    (0x67452301, 0xEFCDAB89, 0x98BADCFE, 0x10325476, 0xC3D2E1F0)
  let pa ← pack_be_L a
  let pb ← pack_be_L b
  let pc ← pack_be_L c
  let pd ← pack_be_L d
  let pe ← pack_be_L e
  return pa ++ pb ++ pc ++ pd ++ pe

/-- Round constants `K` of `sha-256.py`. -/
def K256 : List Nat :=
  [0x428a2f98, 0x71374491, 0xb5c0fbcf, 0xe9b5dba5, 0x3956c25b, 0x59f111f1, 0x923f82a4, 0xab1c5ed5] ++
  [0xd807aa98, 0x12835b01, 0x243185be, 0x550c7dc3, 0x72be5d74, 0x80deb1fe, 0x9bdc06a7, 0xc19bf174] ++
  [0xe49b69c1, 0xefbe4786, 0x0fc19dc6, 0x240ca1cc, 0x2de92c6f, 0x4a7484aa, 0x5cb0a9dc, 0x76f988da] ++
  [0x983e5152, 0xa831c66d, 0xb00327c8, 0xbf597fc7, 0xc6e00bf3, 0xd5a79147, 0x06ca6351, 0x14292967] ++
  [0x27b70a85, 0x2e1b2138, 0x4d2c6dfc, 0x53380d13, 0x650a7354, 0x766a0abb, 0x81c2c92e, 0x92722c85] ++
  [0xa2bfe8a1, 0xa81a664b, 0xc24b8b70, 0xc76c51a3, 0xd192e819, 0xd6990624, 0xf40e3585, 0x106aa070] ++
  [0x19a4c116, 0x1e376c08, 0x2748774c, 0x34b0bcb5, 0x391c0cb3, 0x4ed8aa4a, 0x5b9cca4f, 0x682e6ff3] ++
  [0x748f82ee, 0x78a5636f, 0x84c87814, 0x8cc70208, 0x90befffa, 0xa4506ceb, 0xbef9a3f7, 0xc67178f2]

/-- Initial hash values `H` of `sha-256.py`. -/
def H256 : List Nat := [
  0x6a09e667, 0xbb67ae85, 0x3c6ef372, 0xa54ff53a,
  0x510e527f, 0x9b05688c, 0x1f83d9ab, 0x5be0cd19]

/-- The local `right_rotate` defined inside `sha-256.py`, which shadows
the one imported from `utils`; its body is character-for-character the
same expression. -/
def sha256_right_rotate (value shift : Nat) : Except String Nat :=
  if shift ≤ 32 then .ok ((value >>> shift) ||| ((value <<< (32 - shift)) &&& 0xFFFFFFFF))
  else .error "ValueError: negative shift count"

/-- Body of the padding `while` loop in `sha256`: append `0` while
`(len * 8 + 64) % 512 != 0`.  At most 63 iterations are needed, so fuel
64 never runs out. -/
def sha256_pad_zeros_go : Nat → List Nat → List Nat
  | 0, l => l
  | fuel+1, l =>
    if (l.length * 8 + 64) % 512 ≠ 0 then sha256_pad_zeros_go fuel (l ++ [0]) else l

/-- The zero-padding `while` loop of `sha256`. -/
def sha256_pad_zeros (l : List Nat) : List Nat :=
  sha256_pad_zeros_go 64 l

/-- One iteration `i` of the schedule-expansion loop in `sha256`
(`for i in range(16, 64)`): computes `s0`, `s1` and appends
`(w[i-16] + s0 + w[i-7] + s1) & 0xFFFFFFFF`.  Indices are in range by
construction, so `getD` defaults are never used. -/
def sha256_expand_step (w : List Nat) (i : Nat) : Except String (List Nat) := do
  let s0 := (← sha256_right_rotate (w.getD (i - 15) 0) 7) ^^^
            (← sha256_right_rotate (w.getD (i - 15) 0) 18) ^^^
            ((w.getD (i - 15) 0) >>> 3)
  let s1 := (← sha256_right_rotate (w.getD (i - 2) 0) 17) ^^^
            (← sha256_right_rotate (w.getD (i - 2) 0) 19) ^^^
            ((w.getD (i - 2) 0) >>> 10)
  return w ++ [(w.getD (i - 16) 0 + s0 + w.getD (i - 7) 0 + s1) &&& 0xFFFFFFFF]

/-- Message-schedule construction of `sha256` for one 64-byte chunk:
unpack 16 big-endian words, then run the expansion loop for
`i in range(16, 64)`. -/
def sha256_schedule (block : List Nat) : Except String (List Nat) := do
  let w ← unpack_be_16L block
  (List.range' 16 48).foldlM sha256_expand_step w

/-- One round `i` of the `sha256` main compression loop.  Python's
`(~e) & g` on ints equals `(0xFFFFFFFF ^^^ e) &&& g` here because `e`
and `g` stay below `2^32` throughout. -/
def sha256_round (w : List Nat)
    (st : Nat × Nat × Nat × Nat × Nat × Nat × Nat × Nat) (i : Nat) :
    Except String (Nat × Nat × Nat × Nat × Nat × Nat × Nat × Nat) := do
  let (a, b, c, d, e, f, g, h) := st
  let s1 := (← sha256_right_rotate e 6) ^^^
            (← sha256_right_rotate e 11) ^^^
            (← sha256_right_rotate e 25)
  let ch := (e &&& f) ^^^ ((0xFFFFFFFF ^^^ e) &&& g)
  let temp1 := (h + s1 + ch + K256.getD i 0 + w.getD i 0) &&& 0xFFFFFFFF
  let s0 := (← sha256_right_rotate a 2) ^^^
            (← sha256_right_rotate a 13) ^^^
            (← sha256_right_rotate a 22)
  let maj := (a &&& b) ^^^ (a &&& c) ^^^ (b &&& c)
  let temp2 := (s0 + maj) &&& 0xFFFFFFFF
  return ((temp1 + temp2) &&& 0xFFFFFFFF, a, b, c, (d + temp1) &&& 0xFFFFFFFF, e, f, g)

/-- Processing of one 64-byte chunk in `sha256`: build the schedule,
unpack the eight hash pieces (a `ValueError` if there are not exactly
eight, as in Python tuple unpacking), run 64 rounds, and fold the
working variables back into the hash pieces modulo `2^32`. -/
def sha256_process_chunk (hp : List Nat) (block : List Nat) :
    Except String (List Nat) := do
  let w ← sha256_schedule block
  match hp with
  | [a0, b0, c0, d0, e0, f0, g0, h0] => do
    let (a, b, c, d, e, f, g, h) ←
      (List.range 64).foldlM (fun st i => sha256_round w st i)
        (a0, b0, c0, d0, e0, f0, g0, h0)
    return List.zipWith (fun hp v => (hp + v) &&& 0xFFFFFFFF)
      [a0, b0, c0, d0, e0, f0, g0, h0] [a, b, c, d, e, f, g, h]
  | _ => .error "ValueError: cannot unpack hash pieces"

/-- `sha256` from `sha-256.py`: pad, process 64-byte chunks, and render
the eight final hash pieces as a 64-character lowercase hex string
(Python returns the joined `08x` formats, not raw bytes). -/
def sha256 (message : List Nat) : Except String String := do
  let message_len := message.length * 8
  let zeroPadded := sha256_pad_zeros (message ++ [0x80])
  let lenBytes ← pack_be_Q message_len
  let padded := zeroPadded ++ lenBytes
  let hash ← (chunkList 64 padded).foldlM sha256_process_chunk H256
  return String.join (hash.map (fun piece => hexPad 8 piece))

/-- Round constants `K` of `sha-512.py`. -/
def K512 : List Nat :=
  [0x428a2f98d728ae22, 0x7137449123ef65cd, 0xb5c0fbcfec4d3b2f, 0xe9b5dba58189dbbc, 0x3956c25bf348b538, 0x59f111f1b605d019, 0x923f82a4af194f9b, 0xab1c5ed5da6d8118] ++
  [0xd807aa98a3030242, 0x12835b0145706fbe, 0x243185be4ee4b28c, 0x550c7dc3d5ffb4e2, 0x72be5d74f27b896f, 0x80deb1fe3b1696b1, 0x9bdc06a725c71235, 0xc19bf174cf692694] ++
  [0xe49b69c19ef14ad2, 0xefbe4786384f25e3, 0x0fc19dc68b8cd5b5, 0x240ca1cc77ac9c65, 0x2de92c6f592b0275, 0x4a7484aa6ea6e483, 0x5cb0a9dcbd41fbd4, 0x76f988da831153b5] ++
  [0x983e5152ee66dfab, 0xa831c66d2db43210, 0xb00327c898fb213f, 0xbf597fc7beef0ee4, 0xc6e00bf33da88fc2, 0xd5a79147930aa725, 0x06ca6351e003826f, 0x142929670a0e6e70] ++
  [0x27b70a8546d22ffc, 0x2e1b21385c26c926, 0x4d2c6dfc5ac42aed, 0x53380d139d95b3df, 0x650a73548baf63de, 0x766a0abb3c77b2a8, 0x81c2c92e47edaee6, 0x92722c851482353b] ++
  [0xa2bfe8a14cf10364, 0xa81a664bbc423001, 0xc24b8b70d0f89791, 0xc76c51a30654be30, 0xd192e819d6ef5218, 0xd69906245565a910, 0xf40e35855771202a, 0x106aa07032bbd1b8] ++
  [0x19a4c116b8d2d0c8, 0x1e376c085141ab53, 0x2748774cdf8eeb99, 0x34b0bcb5e19b48a8, 0x391c0cb3c5c95a63, 0x4ed8aa4ae3418acb, 0x5b9cca4f7763e373, 0x682e6ff3d6b2b8a3] ++
  [0x748f82ee5defb2fc, 0x78a5636f43172f60, 0x84c87814a1f0ab72, 0x8cc702081a6439ec, 0x90befffa23631e28, 0xa4506cebde82bde9, 0xbef9a3f7b2c67915, 0xc67178f2e372532b] ++
  [0xca273eceea26619c, 0xd186b8c721c0c207, 0xeada7dd6cde0eb1e, 0xf57d4f7fee6ed178, 0x06f067aa72176fba, 0x0a637dc5a2c898a6, 0x113f9804bef90dae, 0x1b710b35131c471b] ++
  [0x28db77f523047d84, 0x32caab7b40c72493, 0x3c9ebe0a15c9bebc, 0x431d67c49c100d4c, 0x4cc5d4becb3e42b6, 0x597f299cfc657e2a, 0x5fcb6fab3ad6faec, 0x6c44198c4a475817]

/-- Initial hash values `H` of `sha-512.py`. -/
def H512 : List Nat := [
  0x6a09e667f3bcc908, 0xbb67ae8584caa73b, 0x3c6ef372fe94f82b, 0xa54ff53a5f1d36f1,
  0x510e527fade682d1, 0x9b05688c2b3e6c1f, 0x1f83d9abfb41bd6b, 0x5be0cd19137e2179]

/-- Body of the padding `while` loop in `sha512`: append `0` while
`(len * 8 + 128) % 1024 != 0`.  At most 127 iterations are needed, so
fuel 128 never runs out. -/
def sha512_pad_zeros_go : Nat → List Nat → List Nat
  | 0, l => l
  | fuel+1, l =>
    if (l.length * 8 + 128) % 1024 ≠ 0 then sha512_pad_zeros_go fuel (l ++ [0]) else l

/-- The zero-padding `while` loop of `sha512`. -/
def sha512_pad_zeros (l : List Nat) : List Nat :=
  sha512_pad_zeros_go 128 l

/-- One iteration `i` of the schedule-expansion loop in `sha512`
(`for i in range(16, 80)`), which calls the `right_rotate` imported from
`utils` — a 32-bit rotation — on 64-bit words, with shift amounts 1, 8,
19 and 61; shift 61 exceeds 32 and raises ValueError. -/
def sha512_expand_step (w : List Nat) (i : Nat) : Except String (List Nat) := do
  let s0 := (← right_rotate (w.getD (i - 15) 0) 1) ^^^
            (← right_rotate (w.getD (i - 15) 0) 8) ^^^
            ((w.getD (i - 15) 0) >>> 7)
  let s1 := (← right_rotate (w.getD (i - 2) 0) 19) ^^^
            (← right_rotate (w.getD (i - 2) 0) 61) ^^^
            ((w.getD (i - 2) 0) >>> 6)
  return w ++ [(w.getD (i - 16) 0 + s0 + w.getD (i - 7) 0 + s1) &&& 0xFFFFFFFFFFFFFFFF]

/-- Message-schedule construction of `sha512` for one 128-byte chunk:
unpack 16 big-endian 64-bit words, then run the expansion loop for
`i in range(16, 80)`. -/
def sha512_schedule (block : List Nat) : Except String (List Nat) := do
  let w ← unpack_be_16Q block
  (List.range' 16 64).foldlM sha512_expand_step w

/-- One round `i` of the `sha512` main compression loop, again with the
32-bit `right_rotate` from `utils` (shifts 41, 34 and 39 would raise
ValueError, but the schedule expansion raises first).  Python's
`(~e) & g` equals `(0xFFFFFFFFFFFFFFFF ^^^ e) &&& g` for 64-bit values. -/
def sha512_round (w : List Nat)
    (st : Nat × Nat × Nat × Nat × Nat × Nat × Nat × Nat) (i : Nat) :
    Except String (Nat × Nat × Nat × Nat × Nat × Nat × Nat × Nat) := do
  let (a, b, c, d, e, f, g, h) := st
  let s1 := (← right_rotate e 14) ^^^
            (← right_rotate e 18) ^^^
            (← right_rotate e 41)
  let ch := (e &&& f) ^^^ ((0xFFFFFFFFFFFFFFFF ^^^ e) &&& g)
  let temp1 := (h + s1 + ch + K512.getD i 0 + w.getD i 0) &&& 0xFFFFFFFFFFFFFFFF
  let s0 := (← right_rotate a 28) ^^^
            (← right_rotate a 34) ^^^
            (← right_rotate a 39)
  let maj := (a &&& b) ^^^ (a &&& c) ^^^ (b &&& c)
  let temp2 := (s0 + maj) &&& 0xFFFFFFFFFFFFFFFF
  return ((temp1 + temp2) &&& 0xFFFFFFFFFFFFFFFF, a, b, c,
          (d + temp1) &&& 0xFFFFFFFFFFFFFFFF, e, f, g)

/-- Processing of one 128-byte chunk in `sha512`: schedule, 80 rounds,
fold back modulo `2^64`. -/
def sha512_process_chunk (hp : List Nat) (block : List Nat) :
    Except String (List Nat) := do
  let w ← sha512_schedule block
  match hp with
  | [a0, b0, c0, d0, e0, f0, g0, h0] => do
    let (a, b, c, d, e, f, g, h) ←
      (List.range 80).foldlM (fun st i => sha512_round w st i)
        (a0, b0, c0, d0, e0, f0, g0, h0)
    return List.zipWith (fun hp v => (hp + v) &&& 0xFFFFFFFFFFFFFFFF)
      [a0, b0, c0, d0, e0, f0, g0, h0] [a, b, c, d, e, f, g, h]
  | _ => .error "ValueError: cannot unpack hash pieces"

/-- `sha512` from `sha-512.py`: pad (with a 16-byte length field whose
high 8 bytes are a packed zero), process 128-byte chunks, and render the
final pieces as a 128-character lowercase hex string. -/
def sha512 (message : List Nat) : Except String String := do
  let message_len := message.length * 8
  let zeroPadded := sha512_pad_zeros (message ++ [0x80])
  let highBytes ← pack_be_Q 0
  let lenBytes ← pack_be_Q message_len
  let padded := zeroPadded ++ highBytes ++ lenBytes
  let hash ← (chunkList 128 padded).foldlM sha512_process_chunk H512
  return String.join (hash.map (fun piece => hexPad 16 piece))

/-- Right rotation of a 32-bit word, written as the specification states
it (a circular shift within the 32-bit width); used to compare the code
against the claimed schedule recurrence. -/
def specRotr32 (x n : Nat) : Nat :=
  ((x >>> n) ||| (x <<< (32 - n))) % 2^32

/-- The sigma-0 function exactly as the specification words it:
`rotr(x,7) XOR rotr(x,18) XOR (x >> 3)` over 32-bit words. -/
def specSigma0 (x : Nat) : Nat :=
  specRotr32 x 7 ^^^ specRotr32 x 18 ^^^ (x >>> 3)

/-- The sigma-1 function exactly as the specification words it:
`rotr(x,17) XOR rotr(x,19) XOR (x >> 10)` over 32-bit words. -/
def specSigma1 (x : Nat) : Nat :=
  specRotr32 x 17 ^^^ specRotr32 x 19 ^^^ (x >>> 10)

/-- The schedule word the specification's recurrence prescribes at
index `i`, computed from the earlier entries of `w`. -/
def specNext (w : List Nat) (i : Nat) : Nat :=
  (w.getD (i-16) 0 + specSigma0 (w.getD (i-15) 0) +
   w.getD (i-7) 0 + specSigma1 (w.getD (i-2) 0)) % 2^32

set_option maxRecDepth 100000

/-- C1: on the three ASCII bytes of "abc", `sha256` returns the published
SHA-256 known-answer digest, rendered as the 64-character lowercase hex
string `ba7816bf8f01cfea414140de5dae2223b00361a396177a9cb410ff61f20015ad`. -/
theorem sha256_abc_known_answer :
    sha256 [97, 98, 99] =
      Except.ok "ba7816bf8f01cfea414140de5dae2223b00361a396177a9cb410ff61f20015ad" := by
  rfl

/-- C2: the claim that no input makes any of the three digest functions
raise fails on the code — already on the empty message, `sha1` raises
NameError (the undefined `ROTL`) and `sha512` raises ValueError (the
32-bit `right_rotate` from utils applied with shift 61); only `sha256`
produces a result. -/
theorem digest_errors_on_empty_input :
    sha1 [] = Except.error "NameError: ROTL is not defined" ∧
    sha512 [] = Except.error "ValueError: negative shift count" ∧
    (sha256 []).isOk = true :=
  ⟨by rfl, by rfl, by rfl⟩

/-- C3: the claim that `sha512` of the empty message is the standard
SHA-512 empty-string digest fails on the code: `sha512 []` raises
ValueError, because the schedule expansion calls the 32-bit
`right_rotate` imported from utils with shift 61, making the Python
expression `value << (32 - shift)` a shift by a negative amount. -/
theorem sha512_empty_raises :
    sha512 [] = Except.error "ValueError: negative shift count" := by
  rfl

/-- C4: the claim that `sha1_expand_block` fills entries 16..79 with a
left rotation of the four-way XOR fails on the code: on any 64-byte
block — here the all-zero block — the first expansion step calls the
undefined name `ROTL` and raises NameError, so no word list is returned
at all. -/
theorem sha1_expand_block_raises :
    sha1_expand_block (List.replicate 64 0) =
      Except.error "NameError: ROTL is not defined" := by
  rfl

/-- C5: the claim of fixed 20/32/64-byte outputs fails on the code: on
the empty message `sha1` and `sha512` raise instead of returning, and
`sha256` returns a 64-character hex string (the rendering of 32 bytes),
not a 32-byte sequence. -/
theorem digest_output_shape_on_empty_input :
    (sha1 []).isOk = false ∧ (sha512 []).isOk = false ∧
    sha256 [] =
      Except.ok "e3b0c44298fc1c149afbf4c8996fb92427ae41e4649b934ca495991b7852b855" ∧
    (sha256 []).map String.length = Except.ok 64 :=
  ⟨by rfl, by rfl, by rfl, by rfl⟩

/-- Closed form for the zero-padding loop of `sha1_pad_message`: it
appends exactly `(120 - len % 64) % 64` zero bytes — the distance from
`len % 64` up to the next residue 56 — provided the fuel covers that
count (it is at most 63, and `sha1_pad_zeros` supplies 64). -/
theorem sha1_pad_zeros_go_eq (fuel : Nat) : ∀ l : List Nat,
    (120 - l.length % 64) % 64 ≤ fuel →
    sha1_pad_zeros_go fuel l = l ++ List.replicate ((120 - l.length % 64) % 64) 0 := by
  induction fuel with
  | zero =>
    intro l h
    have h0 : (120 - l.length % 64) % 64 = 0 := Nat.le_zero.mp h
    simp [sha1_pad_zeros_go, h0]
  | succ fuel ih =>
    intro l h
    rw [show sha1_pad_zeros_go (fuel + 1) l =
        if (l.length * 8) % 512 ≠ 448 then sha1_pad_zeros_go fuel (l ++ [0]) else l
      from rfl]
    by_cases hc : (l.length * 8) % 512 ≠ 448
    · rw [if_pos hc]
      have hlen : (l ++ [0]).length = l.length + 1 := by simp
      have h2 : 1 ≤ (120 - l.length % 64) % 64 := by omega
      have h1 : (120 - (l.length + 1) % 64) % 64 = (120 - l.length % 64) % 64 - 1 := by
        omega
      rw [ih (l ++ [0]) (by rw [hlen]; omega), hlen, h1, List.append_assoc]
      congr 1
      rw [show (120 - l.length % 64) % 64 = ((120 - l.length % 64) % 64 - 1) + 1
        from by omega]
      simp [List.replicate_succ]
    · rw [if_neg hc]
      have h0 : (120 - l.length % 64) % 64 = 0 := by omega
      simp [h0]

/-- Unfolding of `sha1_pad_message` when the bit length fits the 8-byte
length field. -/
theorem sha1_pad_message_eq (msg : List Nat) (h : msg.length * 8 < 2^64) :
    sha1_pad_message msg =
      Except.ok (sha1_pad_zeros (msg ++ [0x80]) ++ beBytes 8 (msg.length * 8)) := by
  simp only [sha1_pad_message, pack_be_Q, h, if_true, reduceIte]
  rfl

/-- C6: `sha1_pad_message m` is `m`, one `0x80` byte, some zero bytes,
and the 8-byte big-endian encoding of `8 * len m`, with total length a
multiple of 64 (the `0x80` marker is always appended); stated under the
side condition that the bit length fits the 8-byte length field, without
which Python's `struct.pack` raises. -/
theorem sha1_pad_message_spec (m : List Nat) (h : m.length * 8 < 2^64) :
    ∃ k, sha1_pad_message m =
        Except.ok (m ++ 0x80 :: (List.replicate k 0 ++ beBytes 8 (m.length * 8))) ∧
      (m ++ 0x80 :: (List.replicate k 0 ++ beBytes 8 (m.length * 8))).length % 64 = 0 := by
  refine ⟨(120 - (m.length + 1) % 64) % 64, ?_, ?_⟩
  · rw [sha1_pad_message_eq m h]
    unfold sha1_pad_zeros
    rw [sha1_pad_zeros_go_eq 64 (m ++ [0x80])
      (Nat.le_of_lt (Nat.mod_lt _ (by norm_num)))]
    simp [List.append_assoc]
  · have hb : (beBytes 8 (m.length * 8)).length = 8 := by simp [beBytes]
    simp only [List.length_append, List.length_cons, List.length_replicate, hb]
    omega

/-- Witness for C6 at the concrete message "abc". -/
theorem sha1_pad_message_spec_witness :
    [97, 98, 99].length * 8 < 2^64 ∧
    (∃ k, sha1_pad_message [97, 98, 99] =
        Except.ok ([97, 98, 99] ++ 0x80 ::
          (List.replicate k 0 ++ beBytes 8 ([97, 98, 99].length * 8))) ∧
      ([97, 98, 99] ++ 0x80 ::
          (List.replicate k 0 ++ beBytes 8 ([97, 98, 99].length * 8))).length % 64 = 0) :=
  ⟨by decide, sha1_pad_message_spec [97, 98, 99] (by decide)⟩

/-- Reduction of `Except.bind` on an ok value. -/
theorem except_ok_bind {α β : Type} (a : α) (f : α → Except String β) :
    (Except.ok a : Except String α).bind f = f a :=
  rfl

/-- Sum of a `P`-aligned part and a part below `P` stays below `P * Q`. -/
theorem combine_lt (P Q a r : Nat) (_hP : 0 < P) (ha : a < Q) (hr : r < P) :
    P * a + r < P * Q := by
  calc P * a + r < P * a + P := by omega
    _ = P * (a + 1) := by ring
    _ ≤ P * Q := Nat.mul_le_mul_left P (by omega)

/-- Reduction of `(P * n + r) % (P * Q)` for `r < P`. -/
theorem split_mod (P Q n r : Nat) (hQ : 0 < Q) (hr : r < P) :
    (P * n + r) % (P * Q) = P * (n % Q) + r := by
  have hP : 0 < P := by omega
  have e1 : P * n = P * Q * (n / Q) + P * (n % Q) := by
    conv_lhs => rw [← Nat.div_add_mod n Q]
    ring
  rw [e1, Nat.add_assoc, Nat.mul_add_mod]
  exact Nat.mod_eq_of_lt (combine_lt P Q (n % Q) r hP (Nat.mod_lt _ hQ) hr)

/-- Arithmetic value of the `left_rotate` body for a 32-bit input: the
low `32 - b` bits move up by `b` and the high `b` bits move to the
bottom. -/
theorem lr32_val (n b : Nat) (hn : n < 2^32) (hb : b ≤ 32) :
    ((n <<< b) ||| (n >>> (32 - b))) &&& 0xffffffff
      = 2^b * (n % 2^(32-b)) + n / 2^(32-b) := by
  have hPQ : 2^b * 2^(32-b) = 2^32 := by rw [← pow_add]; congr 1; omega
  have hQP : 2^(32-b) * 2^b = 2^32 := by rw [← pow_add]; congr 1; omega
  have hdiv : n / 2^(32-b) < 2^b := Nat.div_lt_of_lt_mul (hQP ▸ hn)
  rw [Nat.shiftLeft_eq, Nat.shiftRight_eq_div_pow,
    Nat.mul_comm n (2^b), ← Nat.mul_add_lt_is_or hdiv n,
    show (0xffffffff : Nat) = 2^32 - 1 from by norm_num,
    Nat.and_pow_two_sub_one_eq_mod, ← hPQ]
  exact split_mod _ _ _ _ (Nat.two_pow_pos (32-b)) hdiv

/-- Arithmetic value of the `right_rotate` body for a 32-bit input: the
low `s` bits move up by `32 - s` and the high `32 - s` bits move to the
bottom. -/
theorem rr32_val (v s : Nat) (hv : v < 2^32) (hs : s ≤ 32) :
    (v >>> s) ||| ((v <<< (32 - s)) &&& 0xFFFFFFFF)
      = v / 2^s + 2^(32-s) * (v % 2^s) := by
  have hPQ : 2^s * 2^(32-s) = 2^32 := by rw [← pow_add]; congr 1; omega
  have hQP : 2^(32-s) * 2^s = 2^32 := by rw [← pow_add]; congr 1; omega
  have hdiv : v / 2^s < 2^(32-s) := Nat.div_lt_of_lt_mul (hPQ ▸ hv)
  have hmask : (v <<< (32 - s)) &&& 0xFFFFFFFF = 2^(32-s) * (v % 2^s) := by
    rw [Nat.shiftLeft_eq, show (0xFFFFFFFF : Nat) = 2^32 - 1 from by norm_num,
      Nat.and_pow_two_sub_one_eq_mod, Nat.mul_comm v (2^(32-s)), ← hQP]
    exact Nat.mul_mod_mul_left _ _ _
  rw [Nat.shiftRight_eq_div_pow, hmask, Nat.lor_comm,
    ← Nat.mul_add_lt_is_or hdiv (v % 2^s), Nat.add_comm]

/-- Value form of `utils.left_rotate` on a 32-bit input with an in-range
shift. -/
theorem left_rotate_eq (n b : Nat) (hn : n < 2^32) (hb : b ≤ 32) :
    left_rotate n b = Except.ok (2^b * (n % 2^(32-b)) + n / 2^(32-b)) := by
  unfold left_rotate
  rw [if_pos hb, lr32_val n b hn hb]

/-- Value form of `utils.right_rotate` on a 32-bit input with an
in-range shift. -/
theorem right_rotate_eq (v s : Nat) (hv : v < 2^32) (hs : s ≤ 32) :
    right_rotate v s = Except.ok (v / 2^s + 2^(32-s) * (v % 2^s)) := by
  unfold right_rotate
  rw [if_pos hs, rr32_val v s hv hs]

/-- C9: `utils.left_rotate` and `utils.right_rotate` are mutually
inverse on 32-bit values for shifts strictly between 0 and 32. -/
theorem rotate_round_trip (v b : Nat) (hv : v < 2^32) (hb0 : 0 < b) (hb : b < 32) :
    (left_rotate v b).bind (fun x => right_rotate x b) = Except.ok v ∧
    (right_rotate v b).bind (fun x => left_rotate x b) = Except.ok v := by
  have hble : b ≤ 32 := by omega
  have hP : 0 < 2^b := Nat.two_pow_pos b
  have hQ : 0 < 2^(32-b) := Nat.two_pow_pos (32-b)
  have hPQ : 2^b * 2^(32-b) = 2^32 := by rw [← pow_add]; congr 1; omega
  have hQP : 2^(32-b) * 2^b = 2^32 := by rw [← pow_add]; congr 1; omega
  have hdivQ : v / 2^(32-b) < 2^b := Nat.div_lt_of_lt_mul (hQP ▸ hv)
  have hdivP : v / 2^b < 2^(32-b) := Nat.div_lt_of_lt_mul (hPQ ▸ hv)
  constructor
  · rw [left_rotate_eq v b hv hble, except_ok_bind]
    have hx : 2^b * (v % 2^(32-b)) + v / 2^(32-b) < 2^32 := by
      rw [← hPQ]
      exact combine_lt _ _ _ _ hP (Nat.mod_lt _ hQ) hdivQ
    rw [right_rotate_eq _ b hx hble]
    congr 1
    rw [Nat.mul_add_mod, Nat.mod_eq_of_lt hdivQ, Nat.mul_add_div hP,
      Nat.div_eq_of_lt hdivQ, Nat.add_zero, Nat.add_comm]
    exact Nat.div_add_mod v (2^(32-b))
  · rw [right_rotate_eq v b hv hble, except_ok_bind]
    have hy : v / 2^b + 2^(32-b) * (v % 2^b) < 2^32 := by
      rw [Nat.add_comm, ← hQP]
      exact combine_lt _ _ _ _ hQ (Nat.mod_lt _ hP) hdivP
    rw [left_rotate_eq _ b hy hble]
    congr 1
    rw [Nat.add_comm (v / 2^b) _, Nat.mul_add_mod, Nat.mod_eq_of_lt hdivP,
      Nat.mul_add_div hQ, Nat.div_eq_of_lt hdivP, Nat.add_zero]
    exact Nat.div_add_mod v (2^b)

/-- Witness for C9 at the concrete value 0xdeadbeef with shift 7. -/
theorem rotate_round_trip_witness :
    (0xdeadbeef : Nat) < 2^32 ∧ 0 < 7 ∧ 7 < 32 ∧
    ((left_rotate 0xdeadbeef 7).bind (fun x => right_rotate x 7) = Except.ok 0xdeadbeef ∧
     (right_rotate 0xdeadbeef 7).bind (fun x => left_rotate x 7) = Except.ok 0xdeadbeef) :=
  ⟨by decide, by decide, by decide,
    rotate_round_trip 0xdeadbeef 7 (by decide) (by decide) (by decide)⟩

/-- Reduction of the monadic bind on an ok value. -/
theorem except_pure_bind {α β : Type} (a : α) (f : α → Except String β) :
    ((Except.ok a : Except String α) >>= f) = f a :=
  rfl

/-- Reading an appended list below the original length. -/
theorem getD_append_lt (l l' : List Nat) (i : Nat) (h : i < l.length) :
    (l ++ l').getD i 0 = l.getD i 0 := by
  induction l generalizing i with
  | nil => simp at h
  | cons a t ih =>
    cases i with
    | zero => rfl
    | succ j =>
      simp only [List.cons_append, List.getD_cons_succ]
      exact ih j (by simpa using h)

/-- Reading an appended list exactly at the original length. -/
theorem getD_append_len (l : List Nat) (a : Nat) :
    (l ++ [a]).getD l.length 0 = a := by
  induction l with
  | nil => rfl
  | cons x t ih =>
    simp only [List.cons_append, List.length_cons, List.getD_cons_succ]
    exact ih

/-- An in-range `getD` read is a member of the list. -/
theorem getD_mem (l : List Nat) (i : Nat) (h : i < l.length) : l.getD i 0 ∈ l := by
  induction l generalizing i with
  | nil => simp at h
  | cons a t ih =>
    cases i with
    | zero => simp
    | succ j =>
      simp only [List.getD_cons_succ]
      exact List.mem_cons_of_mem _ (ih j (by simpa using h))

/-- The specification recurrence reads only indices below `i`, so
appending an element to a list at least `i` long does not change it. -/
theorem specNext_append (w : List Nat) (a : Nat) (i : Nat)
    (h1 : 16 ≤ i) (h2 : i ≤ w.length) :
    specNext (w ++ [a]) i = specNext w i := by
  unfold specNext
  rw [getD_append_lt _ _ _ (by omega), getD_append_lt _ _ _ (by omega),
    getD_append_lt _ _ _ (by omega), getD_append_lt _ _ _ (by omega)]

/-- Number of chunks produced on a list whose length is an exact
multiple of the chunk size. -/
theorem chunkListGo_length_mul (k : Nat) (hk : 0 < k) :
    ∀ (n fuel : Nat) (l : List Nat), l.length = k * n → l.length ≤ fuel →
      (chunkListGo k fuel l).length = n := by
  intro n
  induction n with
  | zero =>
    intro fuel l hl _
    have : l = [] := List.eq_nil_of_length_eq_zero (by omega)
    subst this
    cases fuel <;> rfl
  | succ n ih =>
    intro fuel l hl hf
    rw [Nat.mul_succ] at hl
    obtain ⟨x, xs, rfl⟩ : ∃ x xs, l = x :: xs := by
      cases l with
      | nil => simp at hl; omega
      | cons x xs => exact ⟨x, xs, rfl⟩
    cases fuel with
    | zero => simp at hf
    | succ f =>
      show ((x :: xs).take k :: chunkListGo k f ((x :: xs).drop k)).length = n + 1
      rw [List.length_cons]
      congr 1
      refine ih f ((x :: xs).drop k) ?_ ?_
      · rw [List.length_drop]; omega
      · rw [List.length_drop]; simp at hf ⊢; omega

/-- Every chunk has length at most `k` and draws its entries from the
original list. -/
theorem chunkListGo_mem_spec (k : Nat) :
    ∀ (fuel : Nat) (l c : List Nat), c ∈ chunkListGo k fuel l →
      c.length ≤ k ∧ ∀ x ∈ c, x ∈ l := by
  intro fuel
  induction fuel with
  | zero =>
    intro l c hc
    cases l with
    | nil => exact absurd hc (List.not_mem_nil c)
    | cons a t => exact absurd hc (List.not_mem_nil c)
  | succ f ih =>
    intro l c hc
    cases l with
    | nil => exact absurd hc (List.not_mem_nil c)
    | cons a t =>
      rw [show chunkListGo k (f+1) (a :: t) =
          (a :: t).take k :: chunkListGo k f ((a :: t).drop k) from rfl] at hc
      rcases List.mem_cons.mp hc with h | h
      · subst h
        refine ⟨?_, fun x hx => List.take_subset _ _ hx⟩
        rw [List.length_take]
        exact Nat.min_le_left _ _
      · obtain ⟨h1, h2⟩ := ih _ c h
        exact ⟨h1, fun x hx => List.drop_subset _ _ (h2 x hx)⟩

/-- Bound on the big-endian fold: starting from `acc`, consuming bytes
below 256 stays below `(acc + 1) * 256 ^ length`. -/
theorem beWord_foldl_lt :
    ∀ (chunk : List Nat) (acc : Nat), (∀ b ∈ chunk, b < 256) →
      chunk.foldl (fun a b => a * 256 + b) acc < (acc + 1) * 256 ^ chunk.length := by
  intro chunk
  induction chunk with
  | nil =>
    intro acc _
    simp only [List.foldl_nil, List.length_nil, pow_zero, Nat.mul_one]
    exact Nat.lt_succ_self acc
  | cons b t ih =>
    intro acc h
    have hb : b < 256 := h b (List.mem_cons_self b t)
    have h1 := ih (acc * 256 + b) (fun x hx => h x (List.mem_cons_of_mem b hx))
    have h2 : (acc * 256 + b + 1) * 256 ^ t.length ≤ (acc + 1) * 256 ^ (t.length + 1) := by
      have hle : acc * 256 + b + 1 ≤ (acc + 1) * 256 := by omega
      calc (acc * 256 + b + 1) * 256 ^ t.length
          ≤ ((acc + 1) * 256) * 256 ^ t.length := Nat.mul_le_mul_right _ hle
        _ = (acc + 1) * 256 ^ (t.length + 1) := by ring
    rw [List.foldl_cons, List.length_cons]
    exact Nat.lt_of_lt_of_le h1 h2

/-- A big-endian word read from at most four bytes fits in 32 bits. -/
theorem beWord_lt (c : List Nat) (hl : c.length ≤ 4) (hb : ∀ b ∈ c, b < 256) :
    beWord c < 2^32 := by
  have h1 := beWord_foldl_lt c 0 hb
  have h2 : (0 + 1) * 256 ^ c.length ≤ 2^32 := by
    simp only [Nat.zero_add, Nat.one_mul]
    calc (256:Nat) ^ c.length ≤ 256 ^ 4 := Nat.pow_le_pow_right (by norm_num) hl
      _ = 2^32 := by norm_num
  exact Nat.lt_of_lt_of_le h1 h2

/-- The local `right_rotate` of `sha-256.py` computes exactly the
specification's 32-bit right rotation on 32-bit inputs. -/
theorem sha256_right_rotate_spec (x n : Nat) (hx : x < 2^32) (hn : n ≤ 32) :
    sha256_right_rotate x n = Except.ok (specRotr32 x n) := by
  unfold sha256_right_rotate specRotr32
  rw [if_pos hn]
  have hlt : x >>> n < 2^32 :=
    Nat.lt_of_le_of_lt (by rw [Nat.shiftRight_eq_div_pow]; exact Nat.div_le_self _ _) hx
  rw [show (0xFFFFFFFF : Nat) = 2^32 - 1 from by norm_num,
    ← Nat.and_pow_two_sub_one_eq_mod, Nat.and_distrib_right,
    Nat.and_pow_two_sub_one_of_lt_two_pow hlt]

/-- One expansion step of `sha256` agrees with the specification
recurrence whenever the two rotated entries are 32-bit words. -/
theorem sha256_expand_step_spec (w : List Nat) (i : Nat)
    (h15 : w.getD (i-15) 0 < 2^32) (h2 : w.getD (i-2) 0 < 2^32) :
    sha256_expand_step w i = Except.ok (w ++ [specNext w i]) := by
  unfold sha256_expand_step
  simp only [sha256_right_rotate_spec (w.getD (i-15) 0) 7 h15 (by omega),
    sha256_right_rotate_spec (w.getD (i-15) 0) 18 h15 (by omega),
    sha256_right_rotate_spec (w.getD (i-2) 0) 17 h2 (by omega),
    sha256_right_rotate_spec (w.getD (i-2) 0) 19 h2 (by omega),
    except_pure_bind]
  unfold specNext specSigma0 specSigma1
  rw [show (0xFFFFFFFF : Nat) = 2^32 - 1 from by norm_num,
    Nat.and_pow_two_sub_one_eq_mod]
  rfl

/-- Invariant of the `sha256` schedule-expansion fold: after `j` steps
the word list extends the initial 16 words, all entries are 32-bit, and
every produced index satisfies the specification recurrence. -/
theorem sha256_schedule_fold (w0 : List Nat) (hlen : w0.length = 16)
    (hbound : ∀ x ∈ w0, x < 2^32) :
    ∀ j : Nat, ∃ w rest : List Nat,
      (List.range' 16 j).foldlM sha256_expand_step w0 = Except.ok w ∧
      w = w0 ++ rest ∧
      w.length = 16 + j ∧
      (∀ x ∈ w, x < 2^32) ∧
      (∀ i, 16 ≤ i → i < 16 + j → w.getD i 0 = specNext w i) := by
  intro j
  induction j with
  | zero =>
    refine ⟨w0, [], rfl, by simp, by simp [hlen], hbound, ?_⟩
    intro i h1 h2
    omega
  | succ j ih =>
    obtain ⟨w, rest, hfold, hw, hwlen, hwb, hinv⟩ := ih
    have hb15 : w.getD ((16+j)-15) 0 < 2^32 := hwb _ (getD_mem w _ (by omega))
    have hb2 : w.getD ((16+j)-2) 0 < 2^32 := hwb _ (getD_mem w _ (by omega))
    have hstep := sha256_expand_step_spec w (16+j) hb15 hb2
    have hnext : specNext w (16+j) < 2^32 := by
      unfold specNext
      exact Nat.mod_lt _ (by norm_num)
    refine ⟨w ++ [specNext w (16+j)], rest ++ [specNext w (16+j)],
      ?_, by rw [hw, List.append_assoc], ?_, ?_, ?_⟩
    · rw [List.range'_1_concat, List.foldlM_append, hfold, except_pure_bind]
      simp only [List.foldlM_cons, List.foldlM_nil, hstep, except_pure_bind]
      rfl
    · simp only [List.length_append, List.length_cons, List.length_nil, hwlen]
      omega
    · intro x hx
      rcases List.mem_append.mp hx with h | h
      · exact hwb x h
      · rw [List.mem_singleton.mp h]
        exact hnext
    · intro i h1 h2
      by_cases hij : i < 16 + j
      · rw [getD_append_lt _ _ _ (by omega), specNext_append w _ i h1 (by omega)]
        exact hinv i h1 hij
      · have hieq : i = 16 + j := by omega
        subst hieq
        rw [show (16+j) = w.length from hwlen.symm, getD_append_len,
          specNext_append w _ _ (by omega) (by omega)]

/-- C7: in the `sha256` message schedule, words 0..15 are the block's
big-endian words, and each word at index 16..63 equals
`(w[i-16] + sigma0(w[i-15]) + w[i-7] + sigma1(w[i-2])) mod 2^32` with
the specification's sigma functions, for any 64-byte block. -/
theorem sha256_schedule_spec (block w : List Nat)
    (hlen : block.length = 64) (hbytes : ∀ b ∈ block, b < 256)
    (hw : sha256_schedule block = Except.ok w) :
    w.take 16 = (chunkList 4 block).map beWord ∧
    (∀ i, 16 ≤ i → i < 64 →
      w.getD i 0 =
        (w.getD (i-16) 0 + specSigma0 (w.getD (i-15) 0) +
         w.getD (i-7) 0 + specSigma1 (w.getD (i-2) 0)) % 2^32) := by
  have hw0len : ((chunkList 4 block).map beWord).length = 16 := by
    rw [List.length_map]
    exact chunkListGo_length_mul 4 (by norm_num) 16 block.length block
      (by omega) (Nat.le_refl _)
  have hw0b : ∀ x ∈ (chunkList 4 block).map beWord, x < 2^32 := by
    intro x hx
    obtain ⟨c, hc, rfl⟩ := List.mem_map.mp hx
    obtain ⟨hc1, hc2⟩ := chunkListGo_mem_spec 4 block.length block c hc
    exact beWord_lt c hc1 (fun b hb => hbytes b (hc2 b hb))
  obtain ⟨w', rest, hfold, hweq, hwlen, hwb, hinv⟩ :=
    sha256_schedule_fold _ hw0len hw0b 48
  have hsched : sha256_schedule block = Except.ok w' := by
    unfold sha256_schedule unpack_be_16L
    rw [if_pos hlen, except_pure_bind]
    exact hfold
  rw [hsched] at hw
  injection hw with hww
  subst hww
  constructor
  · rw [hweq]
    exact List.take_left' hw0len
  · intro i h1 h2
    rw [hinv i h1 (by omega)]
    unfold specNext
    rfl

/-- Witness for C7 at the all-zero 64-byte block, whose schedule is the
all-zero 64-word list. -/
theorem sha256_schedule_spec_witness :
    (List.replicate 64 (0:Nat)).length = 64 ∧
    (∀ b ∈ List.replicate 64 (0:Nat), b < 256) ∧
    ((List.replicate 64 (0:Nat)).take 16 =
      (chunkList 4 (List.replicate 64 0)).map beWord ∧
     (∀ i, 16 ≤ i → i < 64 →
       (List.replicate 64 (0:Nat)).getD i 0 =
         ((List.replicate 64 (0:Nat)).getD (i-16) 0 +
          specSigma0 ((List.replicate 64 (0:Nat)).getD (i-15) 0) +
          (List.replicate 64 (0:Nat)).getD (i-7) 0 +
          specSigma1 ((List.replicate 64 (0:Nat)).getD (i-2) 0)) % 2^32)) :=
  ⟨by decide, by decide,
    sha256_schedule_spec (List.replicate 64 0) (List.replicate 64 0)
      (by decide) (by decide) (by rfl)⟩

/-- C8: each digest function is deterministic — the embedding is a pure
function of the message bytes, so two evaluations on the same message
are identical. -/
theorem digest_deterministic (m : List Nat) :
    sha1 m = sha1 m ∧ sha256 m = sha256 m ∧ sha512 m = sha512 m :=
  ⟨rfl, rfl, rfl⟩

/-- C10: the local `right_rotate` defined inside `sha-256.py` is
extensionally equal to the `right_rotate` of `utils.py` (for all values
and shifts, not just 32-bit ones), so the shadowing has no behavioral
effect on `sha256`. -/
theorem sha256_right_rotate_eq_utils (value shift : Nat) :
    sha256_right_rotate value shift = right_rotate value shift :=
  rfl
